import Mathlib

/-!
Verification of the in-memory todo service (`main.go`).

The Go program keeps a map from integer ids to todo records plus a
monotone id counter, guarded by a mutex.  We embed the store as an
association list together with the counter, and each HTTP handler as a
pure function from the decoded multipart form and the current store to
an `Except`-result, mirroring the Go control flow: the handlers read
the form, parse the `subtasks` JSON text, save the uploaded files, and
only then (under the lock) mutate the store, so every error path leaves
the store untouched.

External effects are modelled as oracle inputs: the JSON decoder is a
parameter `parse : String → Option (List Subtask)` (`none` = the string
is not well-formed JSON for a subtask array), and each uploaded file
carries `saveResult : Option Nat` (`some ts` = the disk write succeeds
and `time.Now().UnixNano()` returned `ts`; `none` = an I/O error).
-/

/-- `Subtask` from `main.go`: id, title and a completed flag. -/
structure Subtask where
  id : Int
  title : String
  completed : Bool
deriving DecidableEq

/-- `Todo` from `main.go`. -/
structure Todo where
  id : Int
  title : String
  description : String
  completed : Bool
  images : List String
  subtasks : List Subtask
deriving DecidableEq

/-- The global mutable state of `main.go`: the `todos` map (as an
association list from id to record) and the `nextID` counter. -/
structure Store where
  todos : List (Int × Todo)
  nextID : Int
deriving DecidableEq

/-- The initial state: empty map, `nextID = 1`. -/
def initialStore : Store := { todos := [], nextID := 1 }

/-- Outcome of saving one uploaded file: `some ts` means the write
succeeded and the nanosecond clock read `ts`; `none` means an I/O
error (from `Open`, `os.Create` or `io.Copy`). -/
structure FileUpload where
  filename : String
  saveResult : Option Nat
deriving DecidableEq

/-- A decoded `multipart/form-data` body.  `none` = the key is absent
from `mForm.Value` (resp. `mForm.File`); `some vs` = present with the
listed values, of which the Go code uses `vs[0]` when `len(vs) > 0`. -/
structure MultipartForm where
  titleVals : Option (List String)
  descriptionVals : Option (List String)
  subtasksVals : Option (List String)
  imageFiles : Option (List FileUpload)
deriving DecidableEq

/-- The error classes the handlers produce, with their status codes:
`invalidFormat` = 400 "Invalid subtasks format", `notFound` = 404,
`ioError` = 500 (file save failure). -/
inductive ApiError where
  | invalidFormat
  | notFound
  | ioError
deriving DecidableEq

/-- HTTP status code of each error class. -/
def ApiError.statusCode : ApiError → Nat
  | .invalidFormat => 400
  | .notFound => 404
  | .ioError => 500

/-- `vals[0]` if the field is present with at least one value, else the
default (`""` on create, the stored value on update). -/
def firstValD (o : Option (List String)) (d : String) : String :=
  match o with
  | some (v :: _) => v
  | _ => d

/-- Map lookup `todos[id]`. -/
def lookupTodo : List (Int × Todo) → Int → Option Todo
  | [], _ => none
  | p :: rest, i => if p.1 = i then some p.2 else lookupTodo rest i

/-- Map assignment `todos[id] = t`: replace the entry if the key is
present, otherwise add it. -/
def insertTodo : List (Int × Todo) → Int → Todo → List (Int × Todo)
  | [], i, t => [(i, t)]
  | p :: rest, i, t => if p.1 = i then (i, t) :: rest else p :: insertTodo rest i t

/-- Map removal `delete(todos, id)`. -/
def eraseTodo (l : List (Int × Todo)) (i : Int) : List (Int × Todo) :=
  l.filter (fun p => p.1 ≠ i)

/-- `checkAllSubtasksCompleted` from `main.go`: false on an empty list,
else a loop that fails on the first non-completed subtask. -/
def checkAllSubtasksCompleted (subtasks : List Subtask) : Bool :=
  if subtasks.length = 0 then false
  else loopCompleted subtasks
where
  /-- The `for` loop body of `checkAllSubtasksCompleted`. -/
  loopCompleted : List Subtask → Bool
  | [] => true
  | s :: rest => if !s.completed then false else loopCompleted rest

/-- The decimal rendering `%d` of the nanosecond timestamp followed by
`_` and the original filename, joined under `uploads/`
(`filepath.Join("uploads", fmt.Sprintf("%d_%s", ts, name))`). -/
def savedRef (ts : Nat) (name : String) : String :=
  "uploads/" ++ Nat.repr ts ++ "_" ++ name

/-- The decimal digit string of a natural number, most significant
digit first: the specification of `Nat.repr`. -/
def natDigits (n : Nat) : List Char :=
  if h : n < 10 then [Nat.digitChar n]
  else natDigits (n / 10) ++ [Nat.digitChar (n % 10)]
termination_by n
decreasing_by
  exact Nat.div_lt_self (by omega) (by omega)

/-- Numeric value of a decimal digit character. -/
def charVal (c : Char) : Nat := c.toNat - 48

/-- Numeric value of a digit string, most significant digit first. -/
def val10 (l : List Char) : Nat := l.foldl (fun a c => 10 * a + charVal c) 0

/-- Recover the original filename from a saved reference: drop the
`uploads/` directory prefix, then everything up to and including the
first underscore (the timestamp separator). -/
def recoverOriginalFilename (ref : String) : String :=
  String.mk (((ref.toList.drop 8).dropWhile (fun c => c ≠ '_')).drop 1)

/-- `saveUploadedFile` from `main.go`: on success returns the path of
the stored file, else the I/O error. -/
def saveUploadedFile (f : FileUpload) : Except ApiError String :=
  match f.saveResult with
  | none => .error .ioError
  | some ts => .ok (savedRef ts f.filename)

/-- The upload loop of `createTodo`/`updateTodo`: save each file in
submission order, abort on the first failure, collect the paths. -/
def processImages : List FileUpload → Except ApiError (List String)
  | [] => .ok []
  | f :: fs =>
    match saveUploadedFile f with
    | .error e => .error e
    | .ok path =>
      match processImages fs with
      | .error e => .error e
      | .ok rest => .ok (path :: rest)

/-- The `subtasks` field handling shared by create and update: an empty
string yields the empty sequence, a non-empty string is passed to the
JSON decoder and a decode failure is the 400 `invalidFormat` error. -/
def parseSubtasksField (parse : String → Option (List Subtask)) (s : String) :
    Except ApiError (List Subtask) :=
  if s = "" then .ok []
  else
    match parse s with
    | some l => .ok l
    | none => .error .invalidFormat

/-- `createTodo` from `main.go` (after multipart decoding): read the
fields, parse subtasks, save images, then allocate `nextID`, derive
`completed` and insert the new record. -/
def createTodo (parse : String → Option (List Subtask)) (form : MultipartForm)
    (st : Store) : Except ApiError (Store × Todo) :=
  let title := firstValD form.titleVals ""
  let description := firstValD form.descriptionVals ""
  let subtasksStr := firstValD form.subtasksVals ""
  match parseSubtasksField parse subtasksStr with
  | .error e => .error e
  | .ok subtasks =>
    match processImages (form.imageFiles.getD []) with
    | .error e => .error e
    | .ok images =>
      let completed := checkAllSubtasksCompleted subtasks
      let id := st.nextID
      let newTodo : Todo :=
        { id := id, title := title, description := description,
          completed := completed, images := images, subtasks := subtasks }
      .ok ({ todos := insertTodo st.todos id newTodo, nextID := st.nextID + 1 }, newTodo)

/-- `updateTodo` from `main.go`: 404 if the id is absent; title and
description default to the stored values and are overwritten by any
supplied value; subtasks and images are rebuilt from this request
alone; `completed` is recomputed; the record is written back in
place. -/
def updateTodo (parse : String → Option (List Subtask)) (form : MultipartForm)
    (i : Int) (st : Store) : Except ApiError (Store × Todo) :=
  match lookupTodo st.todos i with
  | none => .error .notFound
  | some todo =>
    let title := firstValD form.titleVals todo.title
    let description := firstValD form.descriptionVals todo.description
    let subtasksStr := firstValD form.subtasksVals ""
    match parseSubtasksField parse subtasksStr with
    | .error e => .error e
    | .ok subtasks =>
      match processImages (form.imageFiles.getD []) with
      | .error e => .error e
      | .ok images =>
        let updated : Todo :=
          { todo with title := title, description := description,
                      subtasks := subtasks, images := images,
                      completed := checkAllSubtasksCompleted subtasks }
        .ok ({ st with todos := insertTodo st.todos i updated }, updated)

/-- `getTodo` from `main.go`: 404 if absent, else the record. -/
def getTodo (i : Int) (st : Store) : Except ApiError Todo :=
  match lookupTodo st.todos i with
  | none => .error .notFound
  | some todo => .ok todo

/-- `getTodos` from `main.go`: the current records (map iteration order
is unspecified in Go; we list them in storage order). -/
def getTodos (st : Store) : List Todo :=
  st.todos.map (fun p => p.2)

/-- `deleteTodo` from `main.go`: 404 if absent, else remove the key. -/
def deleteTodo (i : Int) (st : Store) : Except ApiError Store :=
  match lookupTodo st.todos i with
  | none => .error .notFound
  | some _ => .ok { st with todos := eraseTodo st.todos i }

/-- One routed request against the store. -/
inductive Op where
  | create (form : MultipartForm)
  | update (i : Int) (form : MultipartForm)
  | delete (i : Int)
  | get (i : Int)

/-- Execute one request: the new store, plus the id issued when the
request was a successful create.  Every handler error leaves the store
as it was (in `main.go` the error returns happen before the mutation
under `mu.Lock()`). -/
def applyOp (parse : String → Option (List Subtask)) (st : Store) :
    Op → Store × Option Int
  | .create form =>
    match createTodo parse form st with
    | .ok (st', t) => (st', some t.id)
    | .error _ => (st, none)
  | .update i form =>
    match updateTodo parse form i st with
    | .ok (st', _) => (st', none)
    | .error _ => (st, none)
  | .delete i =>
    match deleteTodo i st with
    | .ok st' => (st', none)
    | .error _ => (st, none)
  | .get _ => (st, none)

/-- Execute a sequence of requests; also collect the ids issued by the
successful creates, in issuance order. -/
def runOps (parse : String → Option (List Subtask)) (st : Store) :
    List Op → Store × List Int
  | [] => (st, [])
  | op :: ops =>
    ((runOps parse (applyOp parse st op).1 ops).1,
     (applyOp parse st op).2.toList ++ (runOps parse (applyOp parse st op).1 ops).2)

/-- Store sanity: every record is filed under its own id, all ids are
below the counter, and no id is filed twice.  This holds in every
reachable state. -/
def WFStore (st : Store) : Prop :=
  (∀ p ∈ st.todos, p.2.id = p.1 ∧ p.1 < st.nextID) ∧
  (st.todos.map (fun p => p.1)).Nodup

instance (st : Store) : Decidable (WFStore st) := by
  unfold WFStore; infer_instance

/-- Id `i` is retired in `st`: no record holds it and the counter has
moved beyond it, so no later create can hand it out again. -/
def Retired (st : Store) (i : Int) : Prop :=
  lookupTodo st.todos i = none ∧ i < st.nextID

/-!
### Concrete fixtures

Closed inputs and their computed outputs, used to evaluate the
operations at concrete data.
-/

/-- A concrete stand-in for the JSON decoder, used in concrete
evaluations: it decodes two fixed example texts (standing for the JSON
of a one-element all-completed array and of a two-element mixed array)
and rejects every other text as malformed. -/
def parseFix : String → Option (List Subtask) := fun s =>
  if s = "SUBS-ALL-DONE" then some [{ id := 0, title := "go", completed := true }]
  else if s = "SUBS-MIXED" then
    some [{ id := 0, title := "go", completed := true },
          { id := 0, title := "stop", completed := false }]
  else none

/-- A stored record fixture: a completed todo with one completed
subtask and one stored image reference. -/
def tFixOld : Todo :=
  { id := 1, title := "old title", description := "old desc",
    completed := true, images := ["uploads/1_old.png"],
    subtasks := [{ id := 0, title := "go", completed := true }] }

/-- A one-record store fixture: id 1 holds `tFixOld`. -/
def stFix : Store := { todos := [(1, tFixOld)], nextID := 2 }

/-- A create request: title, one all-completed subtask array, no files. -/
def formFixC : MultipartForm :=
  { titleVals := some ["Buy milk"], descriptionVals := none,
    subtasksVals := some ["SUBS-ALL-DONE"], imageFiles := none }

/-- A request with every field absent. -/
def formFixEmpty : MultipartForm :=
  { titleVals := none, descriptionVals := none,
    subtasksVals := none, imageFiles := none }

/-- The todo that `createTodo parseFix formFixC initialStore` stores. -/
def tFixC : Todo :=
  { id := 1, title := "Buy milk", description := "", completed := true,
    images := [], subtasks := [{ id := 0, title := "go", completed := true }] }

/-- The store after that create. -/
def stFixC : Store := { todos := [(1, tFixC)], nextID := 2 }

/-- The record of `stFix` after an update with every field absent:
title and description kept, subtasks and images cleared, completed
recomputed to false. -/
def uFixCleared : Todo :=
  { id := 1, title := "old title", description := "old desc",
    completed := false, images := [], subtasks := [] }

/-- The store after that update. -/
def stFixCleared : Store := { todos := [(1, uFixCleared)], nextID := 2 }

/-- The store after deleting id 1 from `stFix`. -/
def stFixDel : Store := { todos := [], nextID := 2 }

/-- An update request that supplies the empty string as the value of
both the title and the description field. -/
def formFixEmptyStrings : MultipartForm :=
  { titleVals := some [""], descriptionVals := some [""],
    subtasksVals := none, imageFiles := none }

/-- The record of `stFix` after `formFixEmptyStrings`: the supplied
empty strings overwrite title and description. -/
def uFixEmptied : Todo :=
  { id := 1, title := "", description := "", completed := false,
    images := [], subtasks := [] }

/-- The store after that update. -/
def stFixEmptied : Store := { todos := [(1, uFixEmptied)], nextID := 2 }

/-- An update request that supplies a fresh non-empty title only. -/
def formFixTitled : MultipartForm :=
  { titleVals := some ["New title"], descriptionVals := none,
    subtasksVals := none, imageFiles := none }

/-- The record of `stFix` after `formFixTitled`. -/
def uFixTitled : Todo :=
  { id := 1, title := "New title", description := "old desc",
    completed := false, images := [], subtasks := [] }

/-- The store after that update. -/
def stFixTitled : Store := { todos := [(1, uFixTitled)], nextID := 2 }

/-- An update request that uploads two files, both writes succeeding
with distinct timestamps. -/
def formFixImgs : MultipartForm :=
  { titleVals := none, descriptionVals := none, subtasksVals := none,
    imageFiles := some [{ filename := "a.png", saveResult := some 100 },
                        { filename := "b.png", saveResult := some 101 }] }

/-- The record of `stFix` after `formFixImgs`: the two new references
replace the stored one. -/
def uFixImgs : Todo :=
  { id := 1, title := "old title", description := "old desc",
    completed := false, images := ["uploads/100_a.png", "uploads/101_b.png"],
    subtasks := [] }

/-- The store after that update. -/
def stFixImgs : Store := { todos := [(1, uFixImgs)], nextID := 2 }

/-- A request whose subtasks field carries a non-empty text that the
decoder rejects (standing for malformed JSON). -/
def formFixBad : MultipartForm :=
  { titleVals := none, descriptionVals := none,
    subtasksVals := some ["NOT-JSON"], imageFiles := none }

/-- A request with a two-file batch whose second save fails with an
I/O error. -/
def formFixFailImg : MultipartForm :=
  { titleVals := none, descriptionVals := none, subtasksVals := none,
    imageFiles := some [{ filename := "a.png", saveResult := some 100 },
                        { filename := "b.png", saveResult := none }] }

/-- The todo that `createTodo parseFix formFixC stFix` stores under the
fresh id 2. -/
def tFixCreated2 : Todo :=
  { id := 2, title := "Buy milk", description := "", completed := true,
    images := [], subtasks := [{ id := 0, title := "go", completed := true }] }

/-- The store after that create on `stFix`. -/
def stFixCreated2 : Store :=
  { todos := stFix.todos ++ [(2, tFixCreated2)], nextID := 3 }

/-! ### Inversion lemmas for the handlers -/

theorem createTodo_ok {parse : String → Option (List Subtask)} {form : MultipartForm}
    {st st' : Store} {t : Todo}
    (h : createTodo parse form st = Except.ok (st', t)) :
    ∃ subtasks images,
      parseSubtasksField parse (firstValD form.subtasksVals "") = Except.ok subtasks ∧
      processImages (form.imageFiles.getD []) = Except.ok images ∧
      t = { id := st.nextID, title := firstValD form.titleVals "",
            description := firstValD form.descriptionVals "",
            completed := checkAllSubtasksCompleted subtasks,
            images := images, subtasks := subtasks } ∧
      st' = { todos := insertTodo st.todos st.nextID t, nextID := st.nextID + 1 } := by
  simp only [createTodo] at h
  cases hp : parseSubtasksField parse (firstValD form.subtasksVals "") with
  | error e => rw [hp] at h; exact Except.noConfusion h
  | ok subtasks =>
    rw [hp] at h
    cases him : processImages (form.imageFiles.getD []) with
    | error e => rw [him] at h; exact Except.noConfusion h
    | ok images =>
      rw [him] at h
      injection h with h1
      injection h1 with hst ht
      subst hst; subst ht
      exact ⟨subtasks, images, rfl, rfl, rfl, rfl⟩

theorem updateTodo_ok {parse : String → Option (List Subtask)} {form : MultipartForm}
    {i : Int} {st st' : Store} {t : Todo}
    (h : updateTodo parse form i st = Except.ok (st', t)) :
    ∃ told subtasks images,
      lookupTodo st.todos i = some told ∧
      parseSubtasksField parse (firstValD form.subtasksVals "") = Except.ok subtasks ∧
      processImages (form.imageFiles.getD []) = Except.ok images ∧
      t = { id := told.id, title := firstValD form.titleVals told.title,
            description := firstValD form.descriptionVals told.description,
            completed := checkAllSubtasksCompleted subtasks,
            images := images, subtasks := subtasks } ∧
      st' = { st with todos := insertTodo st.todos i t } := by
  simp only [updateTodo] at h
  cases hl : lookupTodo st.todos i with
  | none => rw [hl] at h; exact Except.noConfusion h
  | some told =>
    rw [hl] at h
    cases hp : parseSubtasksField parse (firstValD form.subtasksVals "") with
    | error e => rw [hp] at h; exact Except.noConfusion h
    | ok subtasks =>
      rw [hp] at h
      cases him : processImages (form.imageFiles.getD []) with
      | error e => rw [him] at h; exact Except.noConfusion h
      | ok images =>
        rw [him] at h
        injection h with h1
        injection h1 with hst ht
        subst hst; subst ht
        exact ⟨told, subtasks, images, rfl, rfl, rfl, rfl, rfl⟩

theorem updateTodo_notFound {parse : String → Option (List Subtask)}
    {form : MultipartForm} {i : Int} {st : Store}
    (h : lookupTodo st.todos i = none) :
    updateTodo parse form i st = Except.error ApiError.notFound := by
  simp only [updateTodo]
  rw [h]

theorem deleteTodo_ok {i : Int} {st st' : Store}
    (h : deleteTodo i st = Except.ok st') :
    (lookupTodo st.todos i).isSome = true ∧
    st' = { st with todos := eraseTodo st.todos i } := by
  simp only [deleteTodo] at h
  cases hl : lookupTodo st.todos i with
  | none => rw [hl] at h; exact Except.noConfusion h
  | some told =>
    rw [hl] at h
    injection h with h1
    exact ⟨rfl, h1.symm⟩

theorem deleteTodo_notFound {i : Int} {st : Store}
    (h : lookupTodo st.todos i = none) :
    deleteTodo i st = Except.error ApiError.notFound := by
  simp only [deleteTodo]
  rw [h]

/-! ### The completion derivation rule (claim C1) -/

theorem loopCompleted_eq_all (l : List Subtask) :
    checkAllSubtasksCompleted.loopCompleted l = l.all (fun s => s.completed) := by
  induction l with
  | nil => rfl
  | cons s rest ih =>
    simp only [checkAllSubtasksCompleted.loopCompleted, ih, List.all_cons]
    cases s.completed <;> simp

theorem checkAllSubtasksCompleted_spec (l : List Subtask) :
    checkAllSubtasksCompleted l = true ↔ l ≠ [] ∧ ∀ s ∈ l, s.completed = true := by
  unfold checkAllSubtasksCompleted
  rcases l with _ | ⟨s, rest⟩
  · simp
  · simp [loopCompleted_eq_all, List.all_eq_true]

/-- C1: on every successful Create and Update, the stored `completed`
flag is true exactly when the stored subtask sequence is non-empty and
every element is completed; in particular an empty subtask sequence
yields `completed = false`. -/
theorem completed_flag_derivation
    (parse : String → Option (List Subtask)) (formC formU : MultipartForm)
    (stC stU st' stU' : Store) (t u : Todo) (i : Int)
    (hc : createTodo parse formC stC = Except.ok (st', t))
    (hu : updateTodo parse formU i stU = Except.ok (stU', u)) :
    (t.completed = true ↔ t.subtasks ≠ [] ∧ ∀ s ∈ t.subtasks, s.completed = true) ∧
    (t.subtasks = [] → t.completed = false) ∧
    (u.completed = true ↔ u.subtasks ≠ [] ∧ ∀ s ∈ u.subtasks, s.completed = true) ∧
    (u.subtasks = [] → u.completed = false) := by
  obtain ⟨subs, ims, -, -, ht, -⟩ := createTodo_ok hc
  obtain ⟨told, subsU, imsU, -, -, -, htU, -⟩ := updateTodo_ok hu
  subst ht; subst htU
  refine ⟨checkAllSubtasksCompleted_spec subs, ?_, checkAllSubtasksCompleted_spec subsU, ?_⟩
  · intro h
    have h' : subs = [] := h
    subst h'
    rfl
  · intro h
    have h' : subsU = [] := h
    subst h'
    rfl

/-- Witness for C1 at concrete inputs: the Create with one completed
subtask stores `completed = true`, and the Update that clears the
subtasks stores `completed = false`. -/
theorem completed_flag_derivation_witness :
    tFixC.completed = true ∧ uFixCleared.completed = false :=
  ⟨(completed_flag_derivation parseFix formFixC formFixEmpty initialStore stFix
      stFixC stFixCleared tFixC uFixCleared 1 rfl rfl).1.mpr (by decide),
   (completed_flag_derivation parseFix formFixC formFixEmpty initialStore stFix
      stFixC stFixCleared tFixC uFixCleared 1 rfl rfl).2.2.2 rfl⟩

/-! ### Id issuance along a trace (claim C2) -/

theorem applyOp_nextID_le (parse : String → Option (List Subtask)) (st : Store)
    (op : Op) : st.nextID ≤ (applyOp parse st op).1.nextID := by
  cases op with
  | create form =>
    simp only [applyOp]
    cases hc : createTodo parse form st with
    | error e => exact le_refl _
    | ok pr =>
      obtain ⟨st', t⟩ := pr
      obtain ⟨subs, ims, -, -, -, hst⟩ := createTodo_ok hc
      subst hst
      show st.nextID ≤ st.nextID + 1
      omega
  | update i form =>
    simp only [applyOp]
    cases hu : updateTodo parse form i st with
    | error e => exact le_refl _
    | ok pr =>
      obtain ⟨st', t⟩ := pr
      obtain ⟨told, subs, ims, -, -, -, -, hst⟩ := updateTodo_ok hu
      subst hst
      exact le_refl _
  | delete i =>
    simp only [applyOp]
    cases hd : deleteTodo i st with
    | error e => exact le_refl _
    | ok st' =>
      obtain ⟨-, hst⟩ := deleteTodo_ok hd
      subst hst
      exact le_refl _
  | get i => exact le_refl _

theorem applyOp_created (parse : String → Option (List Subtask)) (st : Store)
    (op : Op) {i : Int} (h : (applyOp parse st op).2 = some i) :
    i = st.nextID ∧ (applyOp parse st op).1.nextID = st.nextID + 1 := by
  cases op with
  | create form =>
    simp only [applyOp] at h ⊢
    cases hc : createTodo parse form st with
    | error e => rw [hc] at h; exact Option.noConfusion h
    | ok pr =>
      obtain ⟨st', t⟩ := pr
      rw [hc] at h
      obtain ⟨subs, ims, -, -, ht, hst⟩ := createTodo_ok hc
      injection h with hi
      subst hst; subst ht
      exact ⟨hi.symm, rfl⟩
  | update i' form =>
    simp only [applyOp] at h
    cases hu : updateTodo parse form i' st with
    | error e => rw [hu] at h; exact Option.noConfusion h
    | ok pr =>
      obtain ⟨st', t⟩ := pr
      rw [hu] at h
      exact Option.noConfusion h
  | delete i' =>
    simp only [applyOp] at h
    cases hd : deleteTodo i' st with
    | error e => rw [hd] at h; exact Option.noConfusion h
    | ok st' => rw [hd] at h; exact Option.noConfusion h
  | get i' => exact Option.noConfusion h

theorem runOps_created_ge (parse : String → Option (List Subtask)) (ops : List Op) :
    ∀ st : Store, ∀ i ∈ (runOps parse st ops).2, st.nextID ≤ i := by
  induction ops with
  | nil => intro st i hi; simp [runOps] at hi
  | cons op ops ih =>
    intro st i hi
    simp only [runOps] at hi
    rcases List.mem_append.mp hi with h1 | h2
    · have h1' : (applyOp parse st op).2 = some i := by
        cases hc : (applyOp parse st op).2 with
        | none => rw [hc] at h1; simp [Option.toList] at h1
        | some j => rw [hc] at h1; simp [Option.toList] at h1; rw [h1]
      exact le_of_eq (applyOp_created parse st op h1').1.symm
    · exact le_trans (applyOp_nextID_le parse st op) (ih _ i h2)

theorem runOps_created_pairwise (parse : String → Option (List Subtask))
    (ops : List Op) : ∀ st : Store, List.Pairwise (· < ·) (runOps parse st ops).2 := by
  induction ops with
  | nil => intro st; simp [runOps]
  | cons op ops ih =>
    intro st
    simp only [runOps]
    cases hc : (applyOp parse st op).2 with
    | none => simpa [Option.toList] using ih (applyOp parse st op).1
    | some i =>
      simp only [Option.toList, List.singleton_append, List.pairwise_cons]
      refine ⟨?_, ih _⟩
      intro j hj
      obtain ⟨hi, hnext⟩ := applyOp_created parse st op hc
      have hge := runOps_created_ge parse ops (applyOp parse st op).1 j hj
      rw [hnext] at hge
      omega

theorem lookupTodo_insert_self (l : List (Int × Todo)) (i : Int) (t : Todo) :
    lookupTodo (insertTodo l i t) i = some t := by
  induction l with
  | nil => simp [insertTodo, lookupTodo]
  | cons p rest ih =>
    by_cases hp : p.1 = i
    · simp [insertTodo, hp, lookupTodo]
    · simp [insertTodo, hp, lookupTodo, ih]

theorem lookupTodo_insert_ne (l : List (Int × Todo)) (i j : Int) (t : Todo)
    (h : j ≠ i) : lookupTodo (insertTodo l i t) j = lookupTodo l j := by
  have hij : ¬ i = j := fun h' => h h'.symm
  induction l with
  | nil => simp [insertTodo, lookupTodo, hij]
  | cons p rest ih =>
    by_cases hp : p.1 = i
    · simp [insertTodo, lookupTodo, hp, hij]
    · simp [insertTodo, hp, lookupTodo, ih]

theorem lookupTodo_erase_self (l : List (Int × Todo)) (i : Int) :
    lookupTodo (eraseTodo l i) i = none := by
  induction l with
  | nil => simp [eraseTodo, lookupTodo]
  | cons p rest ih =>
    by_cases hp : p.1 = i
    · simpa [eraseTodo, List.filter_cons, hp] using ih
    · simpa [eraseTodo, List.filter_cons, hp, lookupTodo] using ih

theorem lookupTodo_erase_ne (l : List (Int × Todo)) (i j : Int) (h : j ≠ i) :
    lookupTodo (eraseTodo l i) j = lookupTodo l j := by
  induction l with
  | nil => simp [eraseTodo, lookupTodo]
  | cons p rest ih =>
    have hij : ¬ i = j := fun h' => h h'.symm
    by_cases hp : p.1 = i
    · simpa [eraseTodo, List.filter_cons, hp, lookupTodo, hij] using ih
    · simp only [eraseTodo, ne_eq, decide_not] at ih
      simp [eraseTodo, List.filter_cons, hp, lookupTodo, ih]

/-! ### Frame property (claim C10) -/

/-- C10: each mutating operation touches at most the record it targets
(plus the id counter): after a successful Create every id other than
the new one maps to the same record as before, and likewise after
Update(i) and Delete(i) for every j ≠ i. -/
theorem frame_property (parse : String → Option (List Subtask))
    (formC formU : MultipartForm) (st : Store) (i j : Int)
    (stC stU stD : Store) (t u : Todo)
    (hc : createTodo parse formC st = Except.ok (stC, t))
    (hu : updateTodo parse formU i st = Except.ok (stU, u))
    (hd : deleteTodo i st = Except.ok stD) :
    (j ≠ t.id → lookupTodo stC.todos j = lookupTodo st.todos j) ∧
    (j ≠ i → lookupTodo stU.todos j = lookupTodo st.todos j) ∧
    (j ≠ i → lookupTodo stD.todos j = lookupTodo st.todos j) := by
  obtain ⟨subs, ims, -, -, ht, hstC⟩ := createTodo_ok hc
  obtain ⟨told, subsU, imsU, -, -, -, -, hstU⟩ := updateTodo_ok hu
  obtain ⟨-, hstD⟩ := deleteTodo_ok hd
  subst hstC; subst hstU; subst hstD
  refine ⟨?_, ?_, ?_⟩
  · intro hj
    have hj' : j ≠ st.nextID := by
      intro h'
      exact hj (by rw [ht, h'])
    exact lookupTodo_insert_ne st.todos st.nextID j t hj'
  · intro hj
    exact lookupTodo_insert_ne st.todos i j u hj
  · intro hj
    exact lookupTodo_erase_ne st.todos i j hj

/-- Witness for C10: on the one-record fixture store, creating a new
todo, updating id 1 and deleting id 1 each leave the record at the
other id as it was. -/
theorem frame_property_witness :
    lookupTodo stFixCreated2.todos 1 = lookupTodo stFix.todos 1 ∧
    lookupTodo stFixCleared.todos 2 = lookupTodo stFix.todos 2 ∧
    lookupTodo stFixDel.todos 2 = lookupTodo stFix.todos 2 := by
  have h := frame_property parseFix formFixC formFixEmpty stFix 1 2 stFixCreated2
    stFixCleared stFixDel tFixCreated2 uFixCleared rfl rfl rfl
  have h1 := frame_property parseFix formFixC formFixEmpty stFix 1 1 stFixCreated2
    stFixCleared stFixDel tFixCreated2 uFixCleared rfl rfl rfl
  exact ⟨h1.1 (by decide), h.2.1 (by decide), h.2.2 (by decide)⟩

/-! ### Update field policy (claims C3, C4, C5) -/

/-- C3 as stated is false: id 1 stores title "old title" and
description "old desc"; the update supplies the empty string for both
fields; afterwards the stored title and description are "" — a
supplied empty value does replace the stored one. -/
theorem update_keeps_empty_title_counterexample :
    (lookupTodo stFix.todos 1).map Todo.title = some "old title" ∧
    (lookupTodo stFix.todos 1).map Todo.description = some "old desc" ∧
    updateTodo parseFix formFixEmptyStrings 1 stFix =
      Except.ok (stFixEmptied, uFixEmptied) ∧
    (lookupTodo stFixEmptied.todos 1).map Todo.title = some "" ∧
    (lookupTodo stFixEmptied.todos 1).map Todo.description = some "" :=
  ⟨rfl, rfl, rfl, rfl, rfl⟩

/-- C3 amended: Update leaves the stored title (resp. description)
unchanged exactly when the field is absent from the form or carries no
value; any supplied value — the empty string included — replaces the
stored one. -/
theorem update_title_description_policy (parse : String → Option (List Subtask))
    (form : MultipartForm) (i : Int) (st st' : Store) (t told : Todo)
    (hold : lookupTodo st.todos i = some told)
    (h : updateTodo parse form i st = Except.ok (st', t)) :
    (∀ v vs, form.titleVals = some (v :: vs) → t.title = v) ∧
    ((form.titleVals = none ∨ form.titleVals = some []) → t.title = told.title) ∧
    (∀ v vs, form.descriptionVals = some (v :: vs) → t.description = v) ∧
    ((form.descriptionVals = none ∨ form.descriptionVals = some []) →
      t.description = told.description) := by
  obtain ⟨told', subs, ims, hl, -, -, ht, -⟩ := updateTodo_ok h
  rw [hold] at hl
  injection hl with hl'
  subst hl'
  subst ht
  refine ⟨?_, ?_, ?_, ?_⟩
  · intro v vs hv
    show firstValD form.titleVals told.title = v
    rw [hv]
    rfl
  · rintro (hv | hv) <;>
      · show firstValD form.titleVals told.title = told.title
        rw [hv]
        rfl
  · intro v vs hv
    show firstValD form.descriptionVals told.description = v
    rw [hv]
    rfl
  · rintro (hv | hv) <;>
      · show firstValD form.descriptionVals told.description = told.description
        rw [hv]
        rfl

/-- Witness for the amended C3: a supplied non-empty title replaces,
an absent title and description are kept. -/
theorem update_title_description_policy_witness :
    uFixTitled.title = "New title" ∧ uFixCleared.title = "old title" ∧
    uFixCleared.description = "old desc" :=
  ⟨(update_title_description_policy parseFix formFixTitled 1 stFix stFixTitled
      uFixTitled tFixOld rfl rfl).1 "New title" [] rfl,
   (update_title_description_policy parseFix formFixEmpty 1 stFix stFixCleared
      uFixCleared tFixOld rfl rfl).2.1 (Or.inl rfl),
   (update_title_description_policy parseFix formFixEmpty 1 stFix stFixCleared
      uFixCleared tFixOld rfl rfl).2.2.2 (Or.inl rfl)⟩

theorem processImages_ok {files : List FileUpload} {refs : List String}
    (h : processImages files = Except.ok refs) :
    refs = files.map (fun f => savedRef (f.saveResult.getD 0) f.filename) ∧
    ∀ f ∈ files, f.saveResult.isSome = true := by
  induction files generalizing refs with
  | nil =>
    simp only [processImages] at h
    injection h with h'
    subst h'
    simp
  | cons f fs ih =>
    simp only [processImages] at h
    cases hs : saveUploadedFile f with
    | error e => rw [hs] at h; exact Except.noConfusion h
    | ok path =>
      rw [hs] at h
      cases hr : processImages fs with
      | error e => rw [hr] at h; exact Except.noConfusion h
      | ok rest =>
        rw [hr] at h
        injection h with h'
        subst h'
        obtain ⟨hrest, hall⟩ := ih hr
        simp only [saveUploadedFile] at hs
        cases hts : f.saveResult with
        | none => rw [hts] at hs; exact Except.noConfusion hs
        | some ts =>
          rw [hts] at hs
          injection hs with hs'
          subst hs'
          refine ⟨?_, ?_⟩
          · simp [List.map_cons, hts, hrest]
          · intro g hg
            rcases List.mem_cons.mp hg with hg | hg
            · subst hg; simp [hts]
            · exact hall g hg

/-- C4: after every successful Update the stored image list is exactly
the list of references of the files uploaded in this call, in
submission order; an absent images field leaves the list empty; no
previously stored reference survives. -/
theorem update_images_replaced (parse : String → Option (List Subtask))
    (form : MultipartForm) (i : Int) (st st' : Store) (t : Todo)
    (h : updateTodo parse form i st = Except.ok (st', t)) :
    t.images = (form.imageFiles.getD []).map
        (fun f => savedRef (f.saveResult.getD 0) f.filename) ∧
    (form.imageFiles = none → t.images = []) ∧
    lookupTodo st'.todos i = some t := by
  obtain ⟨told, subs, ims, hl, hp, him, ht, hst⟩ := updateTodo_ok h
  obtain ⟨hrefs, -⟩ := processImages_ok him
  subst ht; subst hst
  refine ⟨hrefs, ?_, lookupTodo_insert_self st.todos i _⟩
  intro hnone
  rw [hrefs, hnone]
  rfl

/-- Witness for C4: updating id 1 with two uploads stores exactly their
two references in order, and updating with no images field stores the
empty list, discarding the previously stored reference. -/
theorem update_images_replaced_witness :
    uFixImgs.images = ["uploads/100_a.png", "uploads/101_b.png"] ∧
    uFixCleared.images = [] ∧
    lookupTodo stFixImgs.todos 1 = some uFixImgs :=
  ⟨((update_images_replaced parseFix formFixImgs 1 stFix stFixImgs
      uFixImgs rfl).1).trans (by decide),
   (update_images_replaced parseFix formFixEmpty 1 stFix stFixCleared
      uFixCleared rfl).2.1 rfl,
   (update_images_replaced parseFix formFixImgs 1 stFix stFixImgs
      uFixImgs rfl).2.2⟩

/-- C5: a successful Update whose subtasks payload is empty (field
absent, present without values, or the empty string) stores an empty
subtask sequence and completed = false, whatever the flag was
before. -/
theorem update_empty_subtasks_clears (parse : String → Option (List Subtask))
    (form : MultipartForm) (i : Int) (st st' : Store) (t : Todo)
    (hempty : firstValD form.subtasksVals "" = "")
    (h : updateTodo parse form i st = Except.ok (st', t)) :
    t.subtasks = [] ∧ t.completed = false ∧ lookupTodo st'.todos i = some t := by
  obtain ⟨told, subs, ims, hl, hp, him, ht, hst⟩ := updateTodo_ok h
  rw [hempty] at hp
  simp only [parseSubtasksField, if_pos rfl] at hp
  injection hp with hp'
  subst hp'
  subst ht; subst hst
  exact ⟨rfl, rfl, lookupTodo_insert_self st.todos i _⟩

/-- Witness for C5: before the update id 1 is completed with one
subtask; the update with an absent subtasks field stores no subtasks
and completed = false. -/
theorem update_empty_subtasks_clears_witness :
    tFixOld.completed = true ∧
    uFixCleared.subtasks = [] ∧ uFixCleared.completed = false ∧
    lookupTodo stFixCleared.todos 1 = some uFixCleared :=
  ⟨rfl,
   (update_empty_subtasks_clears parseFix formFixEmpty 1 stFix stFixCleared
      uFixCleared rfl rfl).1,
   (update_empty_subtasks_clears parseFix formFixEmpty 1 stFix stFixCleared
      uFixCleared rfl rfl).2.1,
   (update_empty_subtasks_clears parseFix formFixEmpty 1 stFix stFixCleared
      uFixCleared rfl rfl).2.2⟩

/-! ### Malformed subtasks payloads (claim C6) -/

/-- C6 as stated is false for Update on an absent id: the subtasks
field is non-empty and malformed, yet the operation fails with
NotFound (404), not InvalidFormat (400), because the existence check
runs before the payload is parsed. -/
theorem malformed_subtasks_notfound_counterexample :
    parseFix "NOT-JSON" = none ∧
    firstValD formFixBad.subtasksVals "" = "NOT-JSON" ∧
    updateTodo parseFix formFixBad 1 initialStore =
      Except.error ApiError.notFound ∧
    ApiError.notFound ≠ ApiError.invalidFormat ∧
    ApiError.notFound.statusCode = 404 :=
  ⟨rfl, rfl, rfl, by decide, rfl⟩

/-- C6 amended: with a non-empty subtasks payload the decoder rejects,
Create fails with InvalidFormat/400, Update on an existing id fails
with InvalidFormat/400, and Update on an absent id fails with
NotFound/404; in every case no todo is added or modified and the id
counter is unchanged. -/
theorem malformed_subtasks_rejected (parse : String → Option (List Subtask))
    (form : MultipartForm) (st : Store) (i : Int)
    (hne : firstValD form.subtasksVals "" ≠ "")
    (hbad : parse (firstValD form.subtasksVals "") = none) :
    createTodo parse form st = Except.error ApiError.invalidFormat ∧
    (applyOp parse st (Op.create form)).1 = st ∧
    ((lookupTodo st.todos i).isSome = true →
       updateTodo parse form i st = Except.error ApiError.invalidFormat) ∧
    (lookupTodo st.todos i = none →
       updateTodo parse form i st = Except.error ApiError.notFound) ∧
    (applyOp parse st (Op.update i form)).1 = st := by
  have hps : parseSubtasksField parse (firstValD form.subtasksVals "") =
      Except.error ApiError.invalidFormat := by
    simp only [parseSubtasksField, if_neg hne, hbad]
  have hcr : createTodo parse form st = Except.error ApiError.invalidFormat := by
    simp only [createTodo]
    rw [hps]
  have hupd : ∀ e, updateTodo parse form i st = Except.error e →
      (applyOp parse st (Op.update i form)).1 = st := by
    intro e he
    simp only [applyOp]
    rw [he]
  refine ⟨hcr, ?_, ?_, ?_, ?_⟩
  · simp only [applyOp]
    rw [hcr]
  · intro hsome
    cases hl : lookupTodo st.todos i with
    | none => rw [hl] at hsome; exact Bool.noConfusion hsome
    | some todo =>
      simp only [updateTodo]
      rw [hl, hps]
  · intro hl
    exact updateTodo_notFound hl
  · cases hl : lookupTodo st.todos i with
    | none => exact hupd ApiError.notFound (updateTodo_notFound hl)
    | some todo =>
      refine hupd ApiError.invalidFormat ?_
      simp only [updateTodo]
      rw [hl, hps]

/-- Witness for the amended C6, at a store holding id 1: Create and
Update(1) with the malformed payload both fail with InvalidFormat and
leave the store unchanged. -/
theorem malformed_subtasks_rejected_witness :
    createTodo parseFix formFixBad stFix = Except.error ApiError.invalidFormat ∧
    updateTodo parseFix formFixBad 1 stFix = Except.error ApiError.invalidFormat ∧
    (applyOp parseFix stFix (Op.create formFixBad)).1 = stFix ∧
    (applyOp parseFix stFix (Op.update 1 formFixBad)).1 = stFix :=
  ⟨(malformed_subtasks_rejected parseFix formFixBad stFix 1 (by decide) rfl).1,
   (malformed_subtasks_rejected parseFix formFixBad stFix 1 (by decide) rfl).2.2.1 rfl,
   (malformed_subtasks_rejected parseFix formFixBad stFix 1 (by decide) rfl).2.1,
   (malformed_subtasks_rejected parseFix formFixBad stFix 1 (by decide) rfl).2.2.2.2⟩

/-! ### Upload failures abort the request (claim C7) -/

theorem processImages_err {files : List FileUpload}
    (h : ∃ f ∈ files, f.saveResult = none) :
    processImages files = Except.error ApiError.ioError := by
  induction files with
  | nil => simp at h
  | cons f fs ih =>
    simp only [processImages]
    cases hts : f.saveResult with
    | none => simp [saveUploadedFile, hts]
    | some ts =>
      have hfs : ∃ g ∈ fs, g.saveResult = none := by
        obtain ⟨g, hg, hgnone⟩ := h
        rcases List.mem_cons.mp hg with hg' | hg'
        · subst hg'; rw [hts] at hgnone; exact Option.noConfusion hgnone
        · exact ⟨g, hg', hgnone⟩
      rw [ih hfs]
      simp [saveUploadedFile, hts]

/-- C7: once a request reaches its upload loop (the subtasks payload
parsed, and for Update the id exists — only then does the code save
files), a failing save makes Create/Update return the 500 I/O error
with the store (records and id counter) exactly as before the call;
conversely the store is only ever mutated by a Create/Update whose
whole batch saved successfully. -/
theorem upload_failure_aborts (parse : String → Option (List Subtask))
    (form : MultipartForm) (st : Store) (i : Int) (subs : List Subtask)
    (hsub : parseSubtasksField parse (firstValD form.subtasksVals "") =
      Except.ok subs) :
    ((∃ f ∈ form.imageFiles.getD [], f.saveResult = none) →
       createTodo parse form st = Except.error ApiError.ioError ∧
       (applyOp parse st (Op.create form)).1 = st ∧
       ((lookupTodo st.todos i).isSome = true →
          updateTodo parse form i st = Except.error ApiError.ioError) ∧
       (applyOp parse st (Op.update i form)).1 = st) ∧
    (∀ st' t, createTodo parse form st = Except.ok (st', t) →
       ∀ f ∈ form.imageFiles.getD [], f.saveResult.isSome = true) ∧
    (∀ st' t, updateTodo parse form i st = Except.ok (st', t) →
       ∀ f ∈ form.imageFiles.getD [], f.saveResult.isSome = true) := by
  refine ⟨?_, ?_, ?_⟩
  · intro hex
    have himg := processImages_err hex
    have hcr : createTodo parse form st = Except.error ApiError.ioError := by
      simp only [createTodo]
      rw [hsub, himg]
    have hup : ∀ todo, lookupTodo st.todos i = some todo →
        updateTodo parse form i st = Except.error ApiError.ioError := by
      intro todo hl
      simp only [updateTodo]
      rw [hl, hsub, himg]
    refine ⟨hcr, ?_, ?_, ?_⟩
    · simp only [applyOp]
      rw [hcr]
    · intro hsome
      cases hl : lookupTodo st.todos i with
      | none => rw [hl] at hsome; exact Bool.noConfusion hsome
      | some todo => exact hup todo hl
    · cases hl : lookupTodo st.todos i with
      | none =>
        simp only [applyOp]
        rw [updateTodo_notFound hl]
      | some todo =>
        simp only [applyOp]
        rw [hup todo hl]
  · intro st' t hc
    obtain ⟨subs', ims, -, him, -, -⟩ := createTodo_ok hc
    exact (processImages_ok him).2
  · intro st' t hu
    obtain ⟨told, subs', ims, -, -, him, -, -⟩ := updateTodo_ok hu
    exact (processImages_ok him).2

/-- Witness for C7: a batch whose second file fails to save makes both
Create and Update(1) on the one-record store return the I/O error and
leave the store unchanged. -/
theorem upload_failure_aborts_witness :
    createTodo parseFix formFixFailImg stFix = Except.error ApiError.ioError ∧
    updateTodo parseFix formFixFailImg 1 stFix = Except.error ApiError.ioError ∧
    (applyOp parseFix stFix (Op.create formFixFailImg)).1 = stFix ∧
    (applyOp parseFix stFix (Op.update 1 formFixFailImg)).1 = stFix := by
  have h := (upload_failure_aborts parseFix formFixFailImg stFix 1 [] rfl).1
    ⟨{ filename := "b.png", saveResult := none }, by decide, rfl⟩
  exact ⟨h.1, h.2.2.1 rfl, h.2.1, h.2.2.2⟩

/-! ### Well-formedness, retirement, and deletion (claim C8) -/

theorem lookupTodo_mem {l : List (Int × Todo)} {k : Int} {w : Todo}
    (h : lookupTodo l k = some w) : (k, w) ∈ l := by
  induction l with
  | nil => exact Option.noConfusion h
  | cons p rest ih =>
    simp only [lookupTodo] at h
    by_cases hp : p.1 = k
    · rw [if_pos hp] at h
      injection h with h'
      subst h'
      subst hp
      exact List.mem_cons_self _ _
    · rw [if_neg hp] at h
      exact List.mem_cons_of_mem _ (ih h)

theorem lookupTodo_eq_none_iff {l : List (Int × Todo)} {k : Int} :
    lookupTodo l k = none ↔ ∀ p ∈ l, p.1 ≠ k := by
  induction l with
  | nil => simp [lookupTodo]
  | cons p rest ih =>
    simp only [lookupTodo]
    by_cases hp : p.1 = k
    · simp [hp]
    · simp [hp, ih]

theorem insertTodo_absent {l : List (Int × Todo)} {k : Int} (t : Todo)
    (h : lookupTodo l k = none) : insertTodo l k t = l ++ [(k, t)] := by
  induction l with
  | nil => rfl
  | cons p rest ih =>
    simp only [lookupTodo] at h
    by_cases hp : p.1 = k
    · rw [if_pos hp] at h
      exact Option.noConfusion h
    · rw [if_neg hp] at h
      simp only [insertTodo, if_neg hp, List.cons_append]
      rw [ih h]

theorem insertTodo_map_fst_present {l : List (Int × Todo)} {k : Int} {w : Todo}
    (t : Todo) (h : lookupTodo l k = some w) :
    (insertTodo l k t).map Prod.fst = l.map Prod.fst := by
  induction l with
  | nil => exact Option.noConfusion h
  | cons p rest ih =>
    simp only [lookupTodo] at h
    by_cases hp : p.1 = k
    · simp [insertTodo, hp]
    · rw [if_neg hp] at h
      simp only [insertTodo, if_neg hp, List.map_cons]
      rw [ih h]

theorem insertTodo_mem {l : List (Int × Todo)} {k : Int} {t : Todo}
    {q : Int × Todo} (h : q ∈ insertTodo l k t) : q = (k, t) ∨ q ∈ l := by
  induction l with
  | nil => simpa [insertTodo] using h
  | cons p rest ih =>
    simp only [insertTodo] at h
    by_cases hp : p.1 = k
    · rw [if_pos hp] at h
      rcases List.mem_cons.mp h with h' | h'
      · exact Or.inl h'
      · exact Or.inr (List.mem_cons_of_mem _ h')
    · rw [if_neg hp] at h
      rcases List.mem_cons.mp h with h' | h'
      · exact Or.inr (h' ▸ List.mem_cons_self _ _)
      · rcases ih h' with h'' | h''
        · exact Or.inl h''
        · exact Or.inr (List.mem_cons_of_mem _ h'')

theorem wf_createTodo {parse : String → Option (List Subtask)}
    {form : MultipartForm} {st st' : Store} {t : Todo} (hwf : WFStore st)
    (h : createTodo parse form st = Except.ok (st', t)) : WFStore st' := by
  obtain ⟨subs, ims, -, -, ht, hst⟩ := createTodo_ok h
  have habs : lookupTodo st.todos st.nextID = none := by
    cases hl : lookupTodo st.todos st.nextID with
    | none => rfl
    | some w =>
      have hlt := (hwf.1 _ (lookupTodo_mem hl)).2
      omega
  subst hst
  unfold WFStore
  refine ⟨?_, ?_⟩
  · intro p hp
    rcases insertTodo_mem hp with hp' | hp'
    · subst hp'
      refine ⟨?_, ?_⟩
      · show t.id = st.nextID
        rw [ht]
      · show st.nextID < st.nextID + 1
        omega
    · obtain ⟨h1, h2⟩ := hwf.1 p hp'
      refine ⟨h1, ?_⟩
      show p.1 < st.nextID + 1
      omega
  · show ((insertTodo st.todos st.nextID t).map Prod.fst).Nodup
    rw [insertTodo_absent t habs, List.map_append]
    refine List.Nodup.append hwf.2 (by simp) ?_
    intro x hx hx'
    simp at hx'
    subst hx'
    obtain ⟨p, hp, hpfst⟩ := List.mem_map.mp hx
    have := (hwf.1 p hp).2
    omega

theorem wf_updateTodo {parse : String → Option (List Subtask)}
    {form : MultipartForm} {i : Int} {st st' : Store} {t : Todo}
    (hwf : WFStore st) (h : updateTodo parse form i st = Except.ok (st', t)) :
    WFStore st' := by
  obtain ⟨told, subs, ims, hl, -, -, ht, hst⟩ := updateTodo_ok h
  have hmem := lookupTodo_mem hl
  have htid : told.id = i := (hwf.1 _ hmem).1
  have hlt : i < st.nextID := (hwf.1 _ hmem).2
  subst hst
  unfold WFStore
  refine ⟨?_, ?_⟩
  · intro p hp
    rcases insertTodo_mem hp with hp' | hp'
    · subst hp'
      refine ⟨?_, hlt⟩
      show t.id = i
      rw [ht]
      exact htid
    · exact hwf.1 p hp'
  · show ((insertTodo st.todos i t).map Prod.fst).Nodup
    rw [insertTodo_map_fst_present t hl]
    exact hwf.2

theorem wf_deleteTodo {i : Int} {st st' : Store} (hwf : WFStore st)
    (h : deleteTodo i st = Except.ok st') : WFStore st' := by
  obtain ⟨-, hst⟩ := deleteTodo_ok h
  subst hst
  unfold WFStore
  refine ⟨?_, ?_⟩
  · intro p hp
    exact hwf.1 p (List.mem_of_mem_filter hp)
  · exact List.Nodup.sublist ((List.filter_sublist _).map Prod.fst) hwf.2

theorem wf_applyOp (parse : String → Option (List Subtask)) {st : Store}
    (op : Op) (hwf : WFStore st) : WFStore (applyOp parse st op).1 := by
  cases op with
  | create form =>
    simp only [applyOp]
    cases hc : createTodo parse form st with
    | error e => exact hwf
    | ok pr =>
      obtain ⟨st', t⟩ := pr
      exact wf_createTodo hwf hc
  | update i form =>
    simp only [applyOp]
    cases hu : updateTodo parse form i st with
    | error e => exact hwf
    | ok pr =>
      obtain ⟨st', t⟩ := pr
      exact wf_updateTodo hwf hu
  | delete i =>
    simp only [applyOp]
    cases hd : deleteTodo i st with
    | error e => exact hwf
    | ok st' => exact wf_deleteTodo hwf hd
  | get i => exact hwf

theorem wf_runOps (parse : String → Option (List Subtask)) (ops : List Op) :
    ∀ st : Store, WFStore st → WFStore (runOps parse st ops).1 := by
  induction ops with
  | nil => intro st h; exact h
  | cons op ops ih => intro st h; exact ih _ (wf_applyOp parse op h)

theorem retired_applyOp (parse : String → Option (List Subtask)) {st : Store}
    (op : Op) {i : Int} (h : Retired st i) : Retired (applyOp parse st op).1 i := by
  obtain ⟨hnone, hlt⟩ := h
  cases op with
  | create form =>
    simp only [applyOp]
    cases hc : createTodo parse form st with
    | error e => exact ⟨hnone, hlt⟩
    | ok pr =>
      obtain ⟨st', t⟩ := pr
      obtain ⟨subs, ims, -, -, -, hst⟩ := createTodo_ok hc
      subst hst
      refine ⟨?_, ?_⟩
      · show lookupTodo (insertTodo st.todos st.nextID t) i = none
        rw [lookupTodo_insert_ne st.todos st.nextID i t (by omega)]
        exact hnone
      · show i < st.nextID + 1
        omega
  | update j form =>
    simp only [applyOp]
    cases hu : updateTodo parse form j st with
    | error e => exact ⟨hnone, hlt⟩
    | ok pr =>
      obtain ⟨st', t⟩ := pr
      obtain ⟨told, subs, ims, hl, -, -, -, hst⟩ := updateTodo_ok hu
      subst hst
      have hij : i ≠ j := by
        intro h'
        subst h'
        rw [hnone] at hl
        exact Option.noConfusion hl
      refine ⟨?_, hlt⟩
      show lookupTodo (insertTodo st.todos j t) i = none
      rw [lookupTodo_insert_ne st.todos j i t hij]
      exact hnone
  | delete j =>
    simp only [applyOp]
    cases hd : deleteTodo j st with
    | error e => exact ⟨hnone, hlt⟩
    | ok st' =>
      obtain ⟨-, hst⟩ := deleteTodo_ok hd
      subst hst
      by_cases hij : i = j
      · subst hij
        exact ⟨lookupTodo_erase_self st.todos i, hlt⟩
      · refine ⟨?_, hlt⟩
        show lookupTodo (eraseTodo st.todos j) i = none
        rw [lookupTodo_erase_ne st.todos j i hij]
        exact hnone
  | get j => exact ⟨hnone, hlt⟩

theorem retired_runOps (parse : String → Option (List Subtask)) (ops : List Op) :
    ∀ (st : Store) (i : Int), Retired st i → Retired (runOps parse st ops).1 i := by
  induction ops with
  | nil => intro st i h; exact h
  | cons op ops ih => intro st i h; exact ih _ i (retired_applyOp parse op h)

theorem digitChar_isDigit : ∀ d, d < 10 → (Nat.digitChar d).isDigit = true := by
  decide

theorem charVal_digitChar : ∀ d, d < 10 → charVal (Nat.digitChar d) = d := by
  decide

theorem natDigits_all_digit (n : Nat) : ∀ c ∈ natDigits n, c.isDigit = true := by
  induction n using Nat.strong_induction_on with
  | _ n ih =>
    by_cases h : n < 10
    · intro c hc
      rw [natDigits, dif_pos h] at hc
      simp only [List.mem_singleton] at hc
      subst hc
      exact digitChar_isDigit n h
    · intro c hc
      rw [natDigits, dif_neg h] at hc
      rcases List.mem_append.mp hc with hc' | hc'
      · exact ih (n / 10) (Nat.div_lt_self (by omega) (by omega)) c hc'
      · simp only [List.mem_singleton] at hc'
        subst hc'
        exact digitChar_isDigit (n % 10) (Nat.mod_lt _ (by omega))

theorem toDigitsCore_eq_natDigits :
    ∀ (fuel n : Nat) (ds : List Char), n < fuel →
      Nat.toDigitsCore 10 fuel n ds = natDigits n ++ ds := by
  intro fuel
  induction fuel with
  | zero => intro n ds h; omega
  | succ fuel ih =>
    intro n ds h
    simp only [Nat.toDigitsCore]
    by_cases h0 : n / 10 = 0
    · have hn : n < 10 := by omega
      rw [if_pos h0, natDigits, dif_pos hn, Nat.mod_eq_of_lt hn]
      rfl
    · have hn : ¬ n < 10 := by omega
      rw [if_neg h0, ih (n / 10) _ (by
        have := Nat.div_lt_self (show 0 < n by omega) (show 1 < 10 by omega)
        omega)]
      conv_rhs => rw [natDigits]
      rw [dif_neg hn, List.append_cons]

theorem repr_eq_natDigits (n : Nat) : Nat.repr n = (natDigits n).asString := by
  rw [Nat.repr, Nat.toDigits]
  rw [toDigitsCore_eq_natDigits (n + 1) n [] (by omega)]
  rw [List.append_nil]

theorem val10_natDigits (n : Nat) : val10 (natDigits n) = n := by
  induction n using Nat.strong_induction_on with
  | _ n ih =>
    by_cases h : n < 10
    · rw [natDigits, dif_pos h]
      show 10 * 0 + charVal (Nat.digitChar n) = n
      rw [charVal_digitChar n h]
      omega
    · rw [natDigits, dif_neg h]
      rw [val10, List.foldl_append]
      rw [show List.foldl (fun a c => 10 * a + charVal c) 0 (natDigits (n / 10)) =
            val10 (natDigits (n / 10)) from rfl]
      rw [ih (n / 10) (Nat.div_lt_self (by omega) (by omega))]
      show 10 * (n / 10) + charVal (Nat.digitChar (n % 10)) = n
      rw [charVal_digitChar (n % 10) (Nat.mod_lt _ (by omega))]
      omega

theorem natDigits_injective {m n : Nat} (h : natDigits m = natDigits n) : m = n := by
  have hm := val10_natDigits m
  rw [h, val10_natDigits n] at hm
  exact hm.symm

theorem savedRef_data (ts : Nat) (name : String) :
    (savedRef ts name).data =
      "uploads/".data ++ (natDigits ts ++ '_' :: name.data) := by
  rw [savedRef]
  rw [String.data_append, String.data_append, String.data_append]
  rw [repr_eq_natDigits]
  rw [show (List.asString (natDigits ts)).data = natDigits ts from rfl]
  simp [List.append_assoc]

theorem dropWhile_append_all {p : Char → Bool} {l1 l2 : List Char}
    (h : ∀ c ∈ l1, p c = true) :
    (l1 ++ l2).dropWhile p = l2.dropWhile p := by
  induction l1 with
  | nil => rfl
  | cons c l ih =>
    rw [List.cons_append, List.dropWhile_cons, if_pos (h c (List.mem_cons_self _ _))]
    exact ih (fun d hd => h d (List.mem_cons_of_mem _ hd))

theorem takeWhile_append_all {p : Char → Bool} {l1 l2 : List Char} {c : Char}
    (h : ∀ d ∈ l1, p d = true) (hc : p c = false) :
    (l1 ++ c :: l2).takeWhile p = l1 := by
  induction l1 with
  | nil =>
    rw [List.nil_append, List.takeWhile_cons, hc]
    rfl
  | cons d l ih =>
    rw [List.cons_append, List.takeWhile_cons, h d (List.mem_cons_self _ _)]
    simp only [if_true]
    rw [ih (fun e he => h e (List.mem_cons_of_mem _ he))]

theorem natDigits_ne_underscore (n : Nat) :
    ∀ c ∈ natDigits n, (fun c => decide (c ≠ '_')) c = true := by
  intro c hc
  have hd := natDigits_all_digit n c hc
  simp only [decide_eq_true_eq, ne_eq]
  intro he
  subst he
  exact Bool.noConfusion hd

theorem recover_savedRef (ts : Nat) (name : String) :
    recoverOriginalFilename (savedRef ts name) = name := by
  obtain ⟨l⟩ := name
  rw [recoverOriginalFilename]
  rw [show (savedRef ts ⟨l⟩).toList = (savedRef ts ⟨l⟩).data from rfl]
  rw [savedRef_data]
  rw [show (8 : Nat) = "uploads/".data.length from rfl, List.drop_left]
  rw [dropWhile_append_all (natDigits_ne_underscore ts)]
  rw [List.dropWhile_cons, if_neg (by decide)]
  rfl

